import Mathlib

/-!
Shallow embedding of `dorind/mbytes` (`bytes.go`): an in-memory seekable
byte buffer with a growable backing store `buff` and an integer cursor
`pos`, plus the unsigned-varint codec built from `encoding/binary`
(`PutUvarint` / `ReadUvarint`), which the repository's `WriteUInt64Var` /
`ReadUInt64Var` delegate to.

Go `int` values (positions, offsets, counts) are modelled as `Int`;
bytes as `Nat` (values produced by the code are `< 256`, with `% 256`
inserted exactly where Go casts to `byte`); `[]byte` as `List Nat`.
Every method of `ByteBuffer` returns its results together with the
post-state, mirroring Go's in-place mutation of the receiver.
A read destination `p []byte` is modelled by its length `l`, and the
bytes that Go's `copy` would place into `p[:n]` are returned as a list.
-/

namespace MBytes

/-- The error values of `bytes.go` (`ErrWhenceUnknown` … `ErrByteRead`),
Go's `io.EOF`, and the two errors `encoding/binary.ReadUvarint` can add
(`io.ErrUnexpectedEOF`, `errOverflow`). -/
inductive BErr where
  | errWhenceUnknown
  | errSeekNegative
  | errSeekOverflow
  | errOffsetNegative
  | errOffsetOverflow
  | errByteRead
  | eof
  | errUnexpectedEOF
  | errOverflow
deriving DecidableEq

/-- `type ByteBuffer struct { buff []byte; pos int }` -/
structure ByteBuffer where
  buff : List Nat
  pos : Int
deriving DecidableEq

/-- The data-model invariant of the spec: `0 ≤ cursor ≤ length(storage)`. -/
def inv (m : ByteBuffer) : Prop :=
  0 ≤ m.pos ∧ m.pos ≤ (m.buff.length : Int)

instance (m : ByteBuffer) : Decidable (inv m) := by
  unfold inv
  exact inferInstance

/-- Modelled from the spec: the helper `min_int`, called by
`readFromPos`, is not among the provided sources; the spec fixes its
meaning as `n = min(available, length(dst))`, integer minimum. -/
def min_int (a b : Int) : Int :=
  if a < b then a else b

/-- `Reset(size)`: fresh zeroed storage of `size` bytes, cursor 0. -/
def Reset (_ : ByteBuffer) (size : Nat) : ByteBuffer :=
  if size > 0 then { buff := List.replicate size 0, pos := 0 }
  else { buff := [], pos := 0 }

/-- `NewByteBuffer(size)` = `(&ByteBuffer{}).Reset(size)`. -/
def NewByteBuffer (size : Nat) : ByteBuffer :=
  Reset { buff := [], pos := 0 } size

/-- `Clear()` = `Reset(0)`. -/
def Clear (m : ByteBuffer) : ByteBuffer :=
  Reset m 0

/-- `Size()` returns `len(m.buff)`. -/
def Size (m : ByteBuffer) : Nat :=
  m.buff.length

/-- `Pos()` returns `m.pos`. -/
def Pos (m : ByteBuffer) : Int :=
  m.pos

/-- `Empty()` returns `len(m.buff) == 0`. -/
def Empty (m : ByteBuffer) : Bool :=
  m.buff.length = 0

/-- `posOverflow(p)` returns `p >= len(m.buff)`. -/
def posOverflow (m : ByteBuffer) (p : Int) : Bool :=
  p ≥ (m.buff.length : Int)

/-- `Seek(offset, whence)`; whence constants are Go's `io.SeekStart = 0`,
`io.SeekCurrent = 1`, `io.SeekEnd = 2`.  Returns `(newPos, err)` and the
post-state. -/
def Seek (m : ByteBuffer) (offset : Int) (whence : Int) : (Int × Option BErr) × ByteBuffer :=
  let check : Int → (Int × Option BErr) × ByteBuffer := fun pos =>
    if pos < 0 then ((-1, some BErr.errSeekNegative), m)
    else if posOverflow m pos then ((-1, some BErr.errSeekOverflow), m)
    else ((pos, none), { m with pos := pos })
  if whence = 0 then check offset
  else if whence = 1 then check (offset + m.pos)
  else if whence = 2 then check (offset + (m.buff.length : Int))
  else ((-1, some BErr.errWhenceUnknown), m)

/-- `readFromPos(p, pos, incPos)` for a destination of length `l`:
returns `(n, err)`, the bytes copied into the destination, and the
post-state. -/
def readFromPos (m : ByteBuffer) (l : Nat) (pos : Int) (incPos : Bool) :
    (Int × Option BErr) × List Nat × ByteBuffer :=
  let avail : Int := (m.buff.length : Int) - pos
  if avail > 0 then
    let n : Int := min_int avail (l : Int)
    let out : List Nat := (m.buff.drop pos.toNat).take n.toNat
    let m1 : ByteBuffer := if incPos then { m with pos := m.pos + n } else m
    if n < (l : Int) then ((n, some BErr.eof), out, m1)
    else ((n, none), out, m1)
  else ((-1, some BErr.eof), [], m)

/-- `Read(p)` = `readFromPos(p, m.pos, true)`. -/
def Read (m : ByteBuffer) (l : Nat) : (Int × Option BErr) × List Nat × ByteBuffer :=
  readFromPos m l m.pos true

/-- `ReadAt(p, off)`: offset sanity checks, then `readFromPos` without
cursor advance. -/
def ReadAt (m : ByteBuffer) (l : Nat) (off : Int) : (Int × Option BErr) × List Nat × ByteBuffer :=
  if off < 0 then ((-1, some BErr.errOffsetNegative), [], m)
  else if posOverflow m off then ((-1, some BErr.errOffsetOverflow), [], m)
  else readFromPos m l off false

/-- `writeFromPos(p, pos)`: overwrite `noverlap` bytes in place at `pos`,
append the remaining `nappend` bytes; returns `(nappend, len(p), err)`
and the post-state. -/
def writeFromPos (m : ByteBuffer) (p : List Nat) (pos : Int) :
    (Int × Int × Option BErr) × ByteBuffer :=
  let l : Int := (p.length : Int)
  let noverlap0 : Int := (m.buff.length : Int) - pos
  let noverlap : Int := if noverlap0 > l then l else noverlap0
  let nappend : Int := l - noverlap
  let buff1 : List Nat :=
    if noverlap > 0 then
      m.buff.take pos.toNat ++ p.take noverlap.toNat ++ m.buff.drop (pos.toNat + noverlap.toNat)
    else m.buff
  let buff2 : List Nat :=
    if nappend > 0 then buff1 ++ p.drop noverlap.toNat else buff1
  ((nappend, l, none), { m with buff := buff2 })

/-- `Write(p)`: `writeFromPos` at the cursor, then `m.pos += appended`. -/
def Write (m : ByteBuffer) (p : List Nat) : (Int × Option BErr) × ByteBuffer :=
  match writeFromPos m p m.pos with
  | ((_, _, some e), m1) => ((-1, some e), m1)
  | ((appended, written, none), m1) => ((written, none), { m1 with pos := m1.pos + appended })

/-- `WriteAt(p, off)`: offset sanity checks, then `writeFromPos` at
`off`, then `m.pos += appended`. -/
def WriteAt (m : ByteBuffer) (p : List Nat) (off : Int) : (Int × Option BErr) × ByteBuffer :=
  if off < 0 then ((-1, some BErr.errOffsetNegative), m)
  else if posOverflow m off then ((-1, some BErr.errOffsetOverflow), m)
  else
    match writeFromPos m p off with
    | ((_, _, some e), m1) => ((-1, some e), m1)
    | ((appended, written, none), m1) => ((written, none), { m1 with pos := m1.pos + appended })

/-- `ReadByte()`: a 1-byte `Read`; errors pass through, a count other
than 1 yields `ErrByteRead`. -/
def ReadByte (m : ByteBuffer) : (Nat × Option BErr) × ByteBuffer :=
  match Read m 1 with
  | ((_, some e), _, m1) => ((0, some e), m1)
  | ((n, none), out, m1) =>
    if n ≠ 1 then ((0, some BErr.errByteRead), m1)
    else ((out.headD 0, none), m1)

/-- `WriteByte(c)`: append `c` to `buff`, set `pos = len(buff)`; never
errors. -/
def WriteByte (m : ByteBuffer) (c : Nat) : Option BErr × ByteBuffer :=
  let buff2 : List Nat := m.buff ++ [c]
  (none, { buff := buff2, pos := (buff2.length : Int) })

/-- `ByteAt(pos)`: a 1-byte `ReadAt`; errors pass through, a count other
than 1 yields `ErrByteRead`. -/
def ByteAt (m : ByteBuffer) (pos : Int) : (Nat × Option BErr) × ByteBuffer :=
  match ReadAt m 1 pos with
  | ((_, some e), _, m1) => ((0, some e), m1)
  | ((n, none), out, m1) =>
    if n ≠ 1 then ((0, some BErr.errByteRead), m1)
    else ((out.headD 0, none), m1)

/-- `encoding/binary.PutUvarint` restricted to the bytes it writes: emit
the low 7 bits with the continuation bit while `x >= 0x80`.  The fuel is
the `MaxVarintLen64 = 10` slots of the buffer `WriteUInt64Var`
allocates; for `x < 2^64` it is never exhausted. -/
def putUvarintAux : Nat → Nat → List Nat
  | 0, _ => []
  | fuel + 1, x =>
    if x ≥ 0x80 then (x % 256 ||| 0x80) :: putUvarintAux fuel (x >>> 7)
    else [x % 256]

/-- The byte sequence `binary.PutUvarint` writes for `x`. -/
def putUvarint (x : Nat) : List Nat :=
  putUvarintAux 10 x

/-- `WriteUInt64Var(x)`: encode with `PutUvarint`, write via `Write`. -/
def WriteUInt64Var (m : ByteBuffer) (x : Nat) : (Int × Option BErr) × ByteBuffer :=
  Write m (putUvarint x)

/-- The loop of `encoding/binary.ReadUvarint` reading from this buffer's
`ReadByte`: `fuel` counts the remaining iterations of
`for i := 0; i < MaxVarintLen64; i++` and `i` the iteration index, so
callers maintain `fuel + i = 10`; running out of fuel is the loop's fall
through, `errOverflow`. -/
def readUvarintAux : Nat → ByteBuffer → Nat → Nat → Nat → (Nat × Option BErr) × ByteBuffer
  | 0, m, x, _, _ => ((x, some BErr.errOverflow), m)
  | fuel + 1, m, x, s, i =>
    match ReadByte m with
    | ((_, some e), m1) =>
      ((x, some (if 0 < i ∧ e = BErr.eof then BErr.errUnexpectedEOF else e)), m1)
    | ((b, none), m1) =>
      if b < 0x80 then
        if i = 9 ∧ 1 < b then ((x, some BErr.errOverflow), m1)
        else (((x ||| (b <<< s)) % 2 ^ 64, none), m1)
      else readUvarintAux fuel m1 ((x ||| ((b &&& 0x7f) <<< s)) % 2 ^ 64) (s + 7) (i + 1)

/-- `ReadUInt64Var()` = `binary.ReadUvarint(m)`. -/
def ReadUInt64Var (m : ByteBuffer) : (Nat × Option BErr) × ByteBuffer :=
  readUvarintAux 10 m 0 0 0

/-- The seek target `Seek`'s switch computes for a valid whence. -/
def seekTarget (m : ByteBuffer) (offset whence : Int) : Int :=
  if whence = 0 then offset
  else if whence = 1 then offset + m.pos
  else offset + (m.buff.length : Int)

/-- The powers of two `1, 2, 4, …, 2 ^ 62` of the varint round-trip
property. -/
def c8values : List Nat :=
  (List.range 63).map fun k => 2 ^ k

/-- An empty buffer after `WriteUInt64Var` of each power of two in
order. -/
def c8encoded : ByteBuffer :=
  c8values.foldl (fun m v => (WriteUInt64Var m v).2) (NewByteBuffer 0)

/-- The encoded buffer after seeking the cursor back to the start. -/
def c8start : ByteBuffer :=
  (Seek c8encoded 0 0).2

/-- Run `ReadUInt64Var` `k` times, collecting the `(value, error)`
results in order. -/
def decodeN : Nat → ByteBuffer → List (Nat × Option BErr) × ByteBuffer
  | 0, m => ([], m)
  | k + 1, m =>
    let r := ReadUInt64Var m
    let rest := decodeN k r.2
    (r.1 :: rest.1, rest.2)

/-! ### Helper lemmas: the read path -/

theorem readFromPos_noInc (m : ByteBuffer) (l : Nat) (pos : Int) :
    (readFromPos m l pos false).2.2 = m := by
  simp only [readFromPos]
  split
  · split <;> rfl
  · rfl

theorem readFromPos_eof (m : ByteBuffer) (l : Nat) (pos : Int) (b : Bool)
    (h : (m.buff.length : Int) ≤ pos) :
    readFromPos m l pos b = ((-1, some BErr.eof), [], m) := by
  simp only [readFromPos]
  rw [if_neg (by omega)]

theorem readFromPos_one (m : ByteBuffer) (pos : Int) (b : Bool)
    (h0 : 0 ≤ pos) (h1 : pos < (m.buff.length : Int)) :
    readFromPos m 1 pos b =
      ((1, none), [m.buff.getD pos.toNat 0],
        if b then { m with pos := m.pos + 1 } else m) := by
  have hlt : pos.toNat < m.buff.length := by omega
  have hdrop : m.buff.drop pos.toNat = m.buff.getD pos.toNat 0 :: m.buff.drop (pos.toNat + 1) := by
    rw [List.drop_eq_getElem_cons hlt, List.getD_eq_getElem m.buff 0 hlt]
  simp only [readFromPos, min_int]
  rw [if_pos (by omega), if_neg (by omega), if_neg (by push_cast; omega), hdrop]
  rfl

theorem readAt_state (m : ByteBuffer) (l : Nat) (off : Int) :
    (ReadAt m l off).2.2 = m := by
  unfold ReadAt
  split
  · rfl
  · split
    · rfl
    · exact readFromPos_noInc m l off

theorem byteAt_state (m : ByteBuffer) (pos : Int) :
    (ByteAt m pos).2 = m := by
  have h := readAt_state m 1 pos
  unfold ByteAt
  rcases he : ReadAt m 1 pos with ⟨⟨n, e⟩, out, m1⟩
  rw [he] at h
  cases e
  · dsimp at h ⊢
    split <;> exact h
  · exact h

theorem read_inv (m : ByteBuffer) (l : Nat) (h : inv m) :
    inv (Read m l).2.2 := by
  obtain ⟨h0, h1⟩ := h
  simp only [Read, readFromPos, min_int, inv]
  split
  · split
    · split <;> constructor <;> simp <;> omega
    · split <;> constructor <;> simp <;> omega
  · exact ⟨h0, h1⟩

theorem read_one (m : ByteBuffer) :
    (Read m 1 = ((-1, some BErr.eof), [], m) ∧ (m.buff.length : Int) ≤ m.pos) ∨
    ((Read m 1).1 = (1, none) ∧ (Read m 1).2.2 = { m with pos := m.pos + 1 }) := by
  simp only [Read, readFromPos, min_int]
  split
  · right
    rw [if_neg (by push_cast; omega), if_neg (by push_cast; omega)]
    exact ⟨rfl, rfl⟩
  · left
    exact ⟨rfl, by omega⟩

theorem readByte_state (m : ByteBuffer) :
    (ReadByte m).2 = (Read m 1).2.2 := by
  unfold ReadByte
  rcases he : Read m 1 with ⟨⟨n, e⟩, out, m1⟩
  cases e
  · dsimp
    split <;> rfl
  · rfl

theorem readByte_inv (m : ByteBuffer) (h : inv m) :
    inv (ReadByte m).2 := by
  rw [readByte_state]
  exact read_inv m 1 h

/-! ### Helper lemmas: the write path -/

theorem writeFromPos_eq (m : ByteBuffer) (p : List Nat) (pos : Int)
    (h0 : 0 ≤ pos) (h1 : pos ≤ (m.buff.length : Int)) :
    writeFromPos m p pos =
      (((p.length : Int) - min_int ((m.buff.length : Int) - pos) (p.length : Int),
        (p.length : Int), none),
       { m with buff := m.buff.take pos.toNat ++ p ++ m.buff.drop (pos.toNat + p.length) }) := by
  simp only [writeFromPos, min_int, Prod.mk.injEq, ByteBuffer.mk.injEq, and_true, true_and]
  split_ifs <;> refine ⟨by omega, ?_⟩
  all_goals try (exfalso; omega)
  all_goals try simp only [Int.toNat_natCast, List.take_length]
  all_goals first
  | (have hp0 : p = [] := List.length_eq_zero.mp (by omega)
     subst hp0
     simp
     done)
  | (have hk : ((m.buff.length : Int) - pos).toNat = p.length := by omega
     rw [hk, List.take_length]
     done)
  | (have h5 : ((m.buff.length : Int) - pos).toNat = 0 := by omega
     have h6 : pos.toNat = m.buff.length := by omega
     rw [h5, List.drop_zero, h6, List.take_length, List.drop_eq_nil_of_le (by omega),
       List.append_nil]
     done)
  | (have hk0 : pos.toNat + ((m.buff.length : Int) - pos).toNat = m.buff.length := by omega
     rw [hk0, List.drop_length, List.append_nil, List.append_assoc, List.take_append_drop,
       List.drop_eq_nil_of_le (by omega), List.append_nil]
     done)

theorem Write_eq (m : ByteBuffer) (p : List Nat) (h : inv m) :
    Write m p =
      (((p.length : Int), none),
       { buff := m.buff.take m.pos.toNat ++ p ++ m.buff.drop (m.pos.toNat + p.length),
         pos := m.pos +
           ((p.length : Int) - min_int ((m.buff.length : Int) - m.pos) (p.length : Int)) }) := by
  unfold Write
  rw [writeFromPos_eq m p m.pos h.1 h.2]

theorem write_buff_length (m : ByteBuffer) (p : List Nat) (pos : Int)
    (h0 : 0 ≤ pos) (h1 : pos ≤ (m.buff.length : Int)) :
    (m.buff.take pos.toNat ++ p ++ m.buff.drop (pos.toNat + p.length)).length =
      max m.buff.length (pos.toNat + p.length) := by
  simp only [List.length_append, List.length_take, List.length_drop]
  omega

theorem write_inv (m : ByteBuffer) (p : List Nat) (h : inv m) :
    inv (Write m p).2 := by
  rw [Write_eq m p h]
  obtain ⟨h0, h1⟩ := h
  constructor
  · simp only [min_int]
    split_ifs <;> omega
  · simp only [write_buff_length m p m.pos h0 h1, min_int]
    split_ifs <;> push_cast <;> omega

theorem WriteAt_eq (m : ByteBuffer) (p : List Nat) (off : Int)
    (h0 : 0 ≤ off) (h1 : off < (m.buff.length : Int)) :
    WriteAt m p off =
      (((p.length : Int), none),
       { buff := m.buff.take off.toNat ++ p ++ m.buff.drop (off.toNat + p.length),
         pos := m.pos +
           ((p.length : Int) - min_int ((m.buff.length : Int) - off) (p.length : Int)) }) := by
  unfold WriteAt
  rw [if_neg (by omega), if_neg (by simp only [posOverflow, decide_eq_true_eq]; omega),
    writeFromPos_eq m p off h0 (le_of_lt h1)]

theorem writeAt_inv (m : ByteBuffer) (p : List Nat) (off : Int) (h : inv m) :
    inv (WriteAt m p off).2 := by
  by_cases hn : off < 0
  · unfold WriteAt
    rw [if_pos hn]
    exact h
  by_cases ho : (m.buff.length : Int) ≤ off
  · unfold WriteAt
    rw [if_neg hn, if_pos (by simp only [posOverflow, decide_eq_true_eq]; omega)]
    exact h
  rw [WriteAt_eq m p off (by omega) (by omega)]
  obtain ⟨h0, h1⟩ := h
  constructor
  · simp only [min_int]
    split_ifs <;> omega
  · simp only [write_buff_length m p off (by omega) (by omega), min_int]
    split_ifs <;> push_cast <;> omega

theorem writeByte_inv (m : ByteBuffer) (c : Nat) :
    inv (WriteByte m c).2 := by
  simp only [WriteByte, inv]
  omega

theorem readUvarintAux_inv (fuel : Nat) :
    ∀ (m : ByteBuffer) (x s i : Nat), inv m → inv (readUvarintAux fuel m x s i).2 := by
  induction fuel with
  | zero => exact fun m x s i h => h
  | succ n ih =>
    intro m x s i h
    have hb := readByte_inv m h
    simp only [readUvarintAux]
    rcases he : ReadByte m with ⟨⟨b, e⟩, m1⟩
    rw [he] at hb
    cases e with
    | some e => exact hb
    | none =>
      dsimp only
      split
      · split
        · exact hb
        · exact hb
      · exact ih m1 _ _ _ hb

/-! ### Helper lemmas: seeking and failure frames -/

theorem seek_eq_check (m : ByteBuffer) (offset whence : Int)
    (hw : whence = 0 ∨ whence = 1 ∨ whence = 2) :
    Seek m offset whence =
      (if seekTarget m offset whence < 0 then ((-1, some BErr.errSeekNegative), m)
       else if (m.buff.length : Int) ≤ seekTarget m offset whence then
         ((-1, some BErr.errSeekOverflow), m)
       else ((seekTarget m offset whence, none), { m with pos := seekTarget m offset whence })) := by
  rcases hw with h | h | h <;> subst h <;>
    simp only [Seek, seekTarget, posOverflow, decide_eq_true_eq] <;>
    norm_num <;>
    split_ifs <;> first | rfl | omega | (exfalso; omega)

theorem seek_fail_frame (m : ByteBuffer) (offset whence : Int) :
    (Seek m offset whence).1.2.isSome = true → (Seek m offset whence).2 = m := by
  simp only [Seek]
  split_ifs <;> simp

theorem writeFromPos_err (m : ByteBuffer) (p : List Nat) (pos : Int) :
    (writeFromPos m p pos).1.2.2 = none := rfl

theorem writeAt_fail_frame (m : ByteBuffer) (p : List Nat) (off : Int) :
    (WriteAt m p off).1.2.isSome = true → (WriteAt m p off).2 = m := by
  unfold WriteAt
  split_ifs
  · exact fun _ => rfl
  · exact fun _ => rfl
  · have herr := writeFromPos_err m p off
    rcases he : writeFromPos m p off with ⟨⟨a, w, e⟩, m1⟩
    rw [he] at herr
    dsimp at herr
    subst herr
    dsimp
    intro hc
    simp at hc

theorem read_fail_frame (m : ByteBuffer) (l : Nat) :
    (Read m l).1.1 = -1 → (Read m l).1.2 = some BErr.eof ∧ (Read m l).2.2 = m := by
  simp only [Read, readFromPos, min_int]
  split_ifs
  all_goals intro hn
  all_goals first
  | exact ⟨rfl, rfl⟩
  | exact hn.elim
  | (dsimp only at hn; exfalso; omega)

theorem readByte_fail_frame (m : ByteBuffer) :
    (ReadByte m).1.2.isSome = true → (ReadByte m).2 = m := by
  rcases read_one m with ⟨h1, _⟩ | ⟨h1, _⟩
  · intro _
    unfold ReadByte
    rw [h1]
  · unfold ReadByte
    rcases he : Read m 1 with ⟨⟨n, e⟩, out, m1⟩
    rw [he] at h1
    dsimp only at h1
    rw [Prod.mk.injEq] at h1
    obtain ⟨hn, hee⟩ := h1
    subst hn
    subst hee
    simp

/-! ### The claims -/

/-- Claim C2: for every buffer, destination and non-negative position,
the shared read primitive `readFromPos` (used by `Read` and `ReadAt`)
behaves as follows: from a position with fewer available bytes than the
destination's length it returns exactly the available bytes —
`storage[pos:]`, with count `length(storage) - pos` — together with the
end-of-data status, and from a position at or past `length(storage)` it
reads no bytes and returns `EndOfData`. -/
theorem c2_read_past_end (m : ByteBuffer) (l : Nat) (pos : Int) (b : Bool)
    (h0 : 0 ≤ pos) :
    ((m.buff.length : Int) ≤ pos →
      readFromPos m l pos b = ((-1, some BErr.eof), [], m)) ∧
    (pos < (m.buff.length : Int) → (m.buff.length : Int) - pos < (l : Int) →
      readFromPos m l pos b =
        (((m.buff.length : Int) - pos, some BErr.eof), m.buff.drop pos.toNat,
          if b then { m with pos := m.pos + ((m.buff.length : Int) - pos) } else m)) := by
  constructor
  · exact fun h => readFromPos_eof m l pos b h
  · intro h1 h2
    simp only [readFromPos, min_int]
    rw [if_pos (by omega : (m.buff.length : Int) - pos > 0),
      if_pos (by omega : (m.buff.length : Int) - pos < (l : Int)),
      if_pos (by omega : (m.buff.length : Int) - pos < (l : Int)),
      List.take_of_length_le (by simp; omega)]

/-- Claim C2 witness: a 5-byte read of `[10, 20, 30]` from position 1
returns the 2 available bytes with `EndOfData`, and a read from
position 3 reads nothing and returns `EndOfData`. -/
theorem c2_read_past_end_witness :
    readFromPos ⟨[10, 20, 30], 1⟩ 5 1 true =
      ((2, some BErr.eof), [20, 30], ⟨[10, 20, 30], 3⟩) ∧
    readFromPos ⟨[10, 20, 30], 3⟩ 5 3 true = ((-1, some BErr.eof), [], ⟨[10, 20, 30], 3⟩) := by
  constructor
  · have h := (c2_read_past_end ⟨[10, 20, 30], 1⟩ 5 1 true (by decide)).2 (by decide) (by decide)
    rw [h]
    decide
  · exact (c2_read_past_end ⟨[10, 20, 30], 3⟩ 5 3 true (by decide)).1 (by decide)

/-- Claim C3: for every buffer satisfying the cursor invariant,
`Write(src)` overwrites `min(length(storage) - cursor, length(src))`
bytes in place at the cursor, appends the remaining bytes, advances
the cursor by exactly the appended amount
`length(src) - min(length(storage) - cursor, length(src))`, returns
`length(src)`, and never fails: the new storage is
`storage[:cursor] ++ src ++ storage[cursor + length(src):]`. -/
theorem c3_write_overlap_append (m : ByteBuffer) (p : List Nat) (h : inv m) :
    Write m p =
      (((p.length : Int), none),
       { buff := m.buff.take m.pos.toNat ++ p ++ m.buff.drop (m.pos.toNat + p.length),
         pos := m.pos +
           ((p.length : Int) - min_int ((m.buff.length : Int) - m.pos) (p.length : Int)) }) :=
  Write_eq m p h

/-- Claim C3 witness: the spec's concrete example — a 6-byte buffer
`"abcdef"` with cursor 3; writing `"abcdef"` yields `"abcabcdef"` of
length 9 with cursor 6 and count 6. -/
theorem c3_write_overlap_append_witness :
    inv ⟨[97, 98, 99, 100, 101, 102], 3⟩ ∧
    Write ⟨[97, 98, 99, 100, 101, 102], 3⟩ [97, 98, 99, 100, 101, 102] =
      ((6, none), ⟨[97, 98, 99, 97, 98, 99, 100, 101, 102], 6⟩) := by
  refine ⟨by decide, ?_⟩
  rw [c3_write_overlap_append ⟨[97, 98, 99, 100, 101, 102], 3⟩ [97, 98, 99, 100, 101, 102]
    (by decide)]
  decide

/-- Claim C4: for a valid whence, `Seek` fails with `SeekOverflow`
exactly when the resolved target is `≥ length(storage)` (after the
`target < 0` check); on success the cursor is set to the target and the
target is returned; and on an empty buffer every `Seek` — any offset,
any whence — fails. -/
theorem c4_seek_bounds (m : ByteBuffer) (offset whence : Int)
    (hw : whence = 0 ∨ whence = 1 ∨ whence = 2) :
    (0 ≤ seekTarget m offset whence →
      ((Seek m offset whence).1.2 = some BErr.errSeekOverflow ↔
        (m.buff.length : Int) ≤ seekTarget m offset whence)) ∧
    (0 ≤ seekTarget m offset whence → (m.buff.length : Int) ≤ seekTarget m offset whence →
      Seek m offset whence = ((-1, some BErr.errSeekOverflow), m)) ∧
    (0 ≤ seekTarget m offset whence → seekTarget m offset whence < (m.buff.length : Int) →
      Seek m offset whence =
        ((seekTarget m offset whence, none), { m with pos := seekTarget m offset whence })) ∧
    (∀ (m2 : ByteBuffer), m2.buff = [] → ∀ o w : Int, (Seek m2 o w).1.2.isSome = true) := by
  rw [seek_eq_check m offset whence hw]
  refine ⟨?_, ?_, ?_, ?_⟩
  · intro h
    split_ifs with h1 h2 <;> simp <;> omega
  · intro h1 h2
    rw [if_neg (by omega), if_pos h2]
  · intro h1 h2
    rw [if_neg (by omega), if_neg (by omega)]
  · intro m2 hm2 o w
    simp only [Seek, posOverflow, hm2, List.length_nil, Nat.cast_zero, decide_eq_true_eq]
    split_ifs <;> first | rfl | (exfalso; omega)

/-- Claim C4 witness: on `[7, 8]`, `Seek(1, Start)` succeeds with cursor
1, `Seek(2, Start)` overflows, and on the empty buffer `Seek(0, Start)`
fails. -/
theorem c4_seek_bounds_witness :
    Seek ⟨[7, 8], 0⟩ 1 0 = ((1, none), ⟨[7, 8], 1⟩) ∧
    Seek ⟨[7, 8], 0⟩ 2 0 = ((-1, some BErr.errSeekOverflow), ⟨[7, 8], 0⟩) ∧
    (Seek ⟨[], 0⟩ 0 0).1.2.isSome = true := by
  refine ⟨?_, ?_, ?_⟩
  · have h := (c4_seek_bounds ⟨[7, 8], 0⟩ 1 0 (Or.inl rfl)).2.2.1 (by decide) (by decide)
    rw [h]
    decide
  · exact (c4_seek_bounds ⟨[7, 8], 0⟩ 2 0 (Or.inl rfl)).2.1 (by decide) (by decide)
  · exact (c4_seek_bounds ⟨[7, 8], 0⟩ 0 0 (Or.inl rfl)).2.2.2 ⟨[], 0⟩ rfl 0 0

/-- Claim C6: every failing operation leaves the buffer unchanged: a
failing `Seek`, a failing `ReadAt` or `WriteAt`, a `Read` that reads no
bytes (which returns `EndOfData`), and a failing `ReadByte` all return
their error with cursor and storage exactly as before the call. -/
theorem c6_failure_frame (m : ByteBuffer) (offset whence : Int) (l : Nat) (p : List Nat)
    (off : Int) :
    ((Seek m offset whence).1.2.isSome = true → (Seek m offset whence).2 = m) ∧
    ((ReadAt m l off).1.2.isSome = true → (ReadAt m l off).2.2 = m) ∧
    ((WriteAt m p off).1.2.isSome = true → (WriteAt m p off).2 = m) ∧
    ((Read m l).1.1 = -1 → (Read m l).1.2 = some BErr.eof ∧ (Read m l).2.2 = m) ∧
    ((ReadByte m).1.2.isSome = true → (ReadByte m).2 = m) :=
  ⟨seek_fail_frame m offset whence, fun _ => readAt_state m l off,
    writeAt_fail_frame m p off, read_fail_frame m l, readByte_fail_frame m⟩

/-- Claim C6 witness: an overflowing `Seek`, a negative-offset `ReadAt`,
an overflowing `WriteAt`, a `Read` at the end and a `ReadByte` at the
end each leave the buffer `⟨[9], 1⟩` untouched. -/
theorem c6_failure_frame_witness :
    (Seek ⟨[9], 1⟩ 5 0).2 = ⟨[9], 1⟩ ∧
    (ReadAt ⟨[9], 1⟩ 4 (-2)).2.2 = ⟨[9], 1⟩ ∧
    (WriteAt ⟨[9], 1⟩ [3] 7).2 = ⟨[9], 1⟩ ∧
    ((Read ⟨[9], 1⟩ 4).1.2 = some BErr.eof ∧ (Read ⟨[9], 1⟩ 4).2.2 = ⟨[9], 1⟩) ∧
    (ReadByte ⟨[9], 1⟩).2 = ⟨[9], 1⟩ := by
  have h := c6_failure_frame ⟨[9], 1⟩ 5 0 4 [3] 7
  refine ⟨h.1 (by decide), ?_, h.2.2.1 (by decide), h.2.2.2.1 (by decide), h.2.2.2.2 (by decide)⟩
  exact (c6_failure_frame ⟨[9], 1⟩ 5 0 4 [3] (-2)).2.1 (by decide)

/-- Claim C7: positional reads are pure — `ReadAt` and the one-byte
`ByteAt` built on it return a state identical to the input state (cursor
and storage untouched) in every case: success, partial read with
end-of-data, or offset failure. -/
theorem c7_positional_reads_pure (m : ByteBuffer) (l : Nat) (off pos : Int) :
    (ReadAt m l off).2.2 = m ∧ (ByteAt m pos).2 = m :=
  ⟨readAt_state m l off, byteAt_state m pos⟩

/-- Claim C9: `WriteByte(b)` appends `b` at the true end of storage,
growing it by one byte, never overwrites existing bytes (the old storage
is a prefix of the new), leaves the cursor at the new
`length(storage)`, and never returns an error — all regardless of the
prior cursor value. -/
theorem c9_writeByte_appends (m : ByteBuffer) (c : Nat) :
    WriteByte m c = (none, { buff := m.buff ++ [c], pos := ((m.buff ++ [c]).length : Int) }) ∧
    (WriteByte m c).2.buff.take m.buff.length = m.buff ∧
    (WriteByte m c).2.pos = ((WriteByte m c).2.buff.length : Int) := by
  refine ⟨rfl, ?_, rfl⟩
  simp [WriteByte]

/-- Claim C1 counterexample: on a 2-byte buffer with cursor 0,
`WriteAt([1,2,3], 1)` appends 2 bytes but leaves the cursor at
`0 + 2 = 2`, not at `offset + appended = 1 + 2 = 3` as the claim
states. -/
theorem c1_writeAt_cursor_cex :
    (WriteAt ⟨[0, 0], 0⟩ [1, 2, 3] 1).2.pos ≠
      1 + (writeFromPos ⟨[0, 0], 0⟩ [1, 2, 3] 1).1.1 := by decide

/-- Claim C1 (amended): for `0 ≤ offset < length(storage)`,
`WriteAt(src, offset)` performs the shared overlap/append write at
`offset` and then increments the cursor by `appended` — the cursor
becomes its prior value plus `appended` (not `offset + appended`),
whatever the prior cursor was. -/
theorem c1_writeAt_cursor (m : ByteBuffer) (p : List Nat) (off : Int)
    (h0 : 0 ≤ off) (h1 : off < (m.buff.length : Int)) :
    WriteAt m p off =
      (((p.length : Int), none),
       { buff := m.buff.take off.toNat ++ p ++ m.buff.drop (off.toNat + p.length),
         pos := m.pos +
           ((p.length : Int) - min_int ((m.buff.length : Int) - off) (p.length : Int)) }) :=
  WriteAt_eq m p off h0 h1

/-- Claim C1 witness: the counterexample input, under the amended rule —
`WriteAt([1,2,3], 1)` on `⟨[0,0], 0⟩` overwrites one byte, appends two,
and leaves the cursor at `0 + 2 = 2`. -/
theorem c1_writeAt_cursor_witness :
    (0 : Int) ≤ 1 ∧ (1 : Int) < 2 ∧
    WriteAt ⟨[0, 0], 0⟩ [1, 2, 3] 1 = ((3, none), ⟨[0, 1, 2, 3], 2⟩) := by
  refine ⟨by decide, by decide, ?_⟩
  rw [c1_writeAt_cursor ⟨[0, 0], 0⟩ [1, 2, 3] 1 (by decide) (by decide)]
  decide

/-- Claim C10: for every buffer satisfying the cursor invariant,
`ReadByte` either returns the byte at the cursor and advances the cursor
by one (when `cursor < length(storage)`), or fails with `EndOfData`
leaving the buffer unchanged; the `ByteReadError` branch is unreachable. -/
theorem c10_readByte (m : ByteBuffer) (h : inv m) :
    (m.pos < (m.buff.length : Int) →
      ReadByte m = ((m.buff.getD m.pos.toNat 0, none), { m with pos := m.pos + 1 })) ∧
    ((m.buff.length : Int) ≤ m.pos →
      ReadByte m = ((0, some BErr.eof), m)) ∧
    (ReadByte m).1.2 ≠ some BErr.errByteRead := by
  have hone : ∀ hlt : m.pos < (m.buff.length : Int),
      ReadByte m = ((m.buff.getD m.pos.toNat 0, none), { m with pos := m.pos + 1 }) := by
    intro hlt
    unfold ReadByte
    rw [show Read m 1 = readFromPos m 1 m.pos true from rfl,
      readFromPos_one m m.pos true h.1 hlt]
    norm_num
  have heof : ∀ hge : (m.buff.length : Int) ≤ m.pos,
      ReadByte m = ((0, some BErr.eof), m) := by
    intro hge
    unfold ReadByte
    rw [show Read m 1 = readFromPos m 1 m.pos true from rfl, readFromPos_eof m 1 m.pos true hge]
  refine ⟨hone, heof, ?_⟩
  rcases lt_or_le m.pos (m.buff.length : Int) with hlt | hge
  · rw [hone hlt]
    simp
  · rw [heof hge]
    simp

/-- Claim C10 witness: on `⟨[5, 6], 0⟩` the invariant holds, `ReadByte`
returns byte 5 advancing the cursor to 1, and on `⟨[5, 6], 2⟩` it fails
with `EndOfData` without moving the cursor; neither returns
`ByteReadError`. -/
theorem c10_readByte_witness :
    inv ⟨[5, 6], 0⟩ ∧ ReadByte ⟨[5, 6], 0⟩ = ((5, none), ⟨[5, 6], 1⟩) ∧
    ReadByte ⟨[5, 6], 2⟩ = ((0, some BErr.eof), ⟨[5, 6], 2⟩) := by
  refine ⟨by decide, ?_, ?_⟩
  · have h := (c10_readByte ⟨[5, 6], 0⟩ (by decide)).1 (by decide)
    rw [h]
    decide
  · exact (c10_readByte ⟨[5, 6], 2⟩ (by decide)).2.1 (by decide)

/-- Claim C5: the invariant `0 ≤ cursor ≤ length(storage)` is
established by construction and preserved by every public operation:
`Reset`, `Clear`, `Seek`, `Read`, `ReadAt`, `Write`, `WriteAt`,
`ReadByte`, `WriteByte`, and the varint codec `WriteUInt64Var` /
`ReadUInt64Var`. -/
theorem c5_cursor_invariant (m : ByteBuffer) (h : inv m) (size : Nat) (offset whence : Int)
    (l : Nat) (p : List Nat) (off : Int) (c : Nat) (x : Nat) :
    inv (NewByteBuffer size) ∧ inv (Reset m size) ∧ inv (Clear m) ∧
    inv (Seek m offset whence).2 ∧
    inv (Read m l).2.2 ∧
    inv (ReadAt m l off).2.2 ∧
    inv (Write m p).2 ∧
    inv (WriteAt m p off).2 ∧
    inv (ReadByte m).2 ∧
    inv (WriteByte m c).2 ∧
    inv (WriteUInt64Var m x).2 ∧
    inv (ReadUInt64Var m).2 := by
  have hreset : ∀ (m2 : ByteBuffer) (s : Nat), inv (Reset m2 s) := by
    intro m2 s
    unfold Reset inv
    split <;> simp
  have hseek : inv (Seek m offset whence).2 := by
    unfold Seek
    dsimp only
    split_ifs <;> first | exact h | constructor <;> simp_all [posOverflow] <;> omega
  refine ⟨hreset _ size, hreset m size, hreset m 0, hseek, read_inv m l h, ?_, write_inv m p h,
    writeAt_inv m p off h, readByte_inv m h, writeByte_inv m c, write_inv m (putUvarint x) h,
    readUvarintAux_inv 10 m 0 0 0 h⟩
  rw [readAt_state m l off]
  exact h

/-- Claim C5 witness: the invariant holds for `⟨[1, 2], 1⟩` and for the
result of each operation applied to it. -/
theorem c5_cursor_invariant_witness :
    inv ⟨[1, 2], 1⟩ ∧ inv (NewByteBuffer 3) ∧ inv (Write ⟨[1, 2], 1⟩ [4, 5]).2 ∧
    inv (ReadUInt64Var ⟨[1, 2], 1⟩).2 := by
  have h := c5_cursor_invariant ⟨[1, 2], 1⟩ (by decide) 3 0 0 1 [4, 5] 0 7 9
  exact ⟨by decide, h.1, h.2.2.2.2.2.2.1, h.2.2.2.2.2.2.2.2.2.2.2⟩

set_option maxRecDepth 10000 in
/-- Claim C8: writing the powers of two `1, 2, 4, …, 2 ^ 62` in sequence
with `WriteUInt64Var` into an empty buffer, seeking the cursor to the
start, then decoding with `ReadUInt64Var` reproduces the exact values in
the order written, each without error; one further decode past the last
encoded value fails with end-of-data. -/
theorem c8_varint_roundtrip :
    (decodeN 63 c8start).1 = c8values.map (fun v => (v, (none : Option BErr))) ∧
    (ReadUInt64Var (decodeN 63 c8start).2).1 = (0, some BErr.eof) := by decide

end MBytes
